import Mathlib

/-!
Shallow embedding of src/Processors/Transforms/SplittingByHashTransform.cpp:
the hash-based repartitioning pair SplittingByHashTransform (one-in/one-out
splitter) and ResizeByHashTransform (one-in/N-out fan-out state machine).

Machine integers are modelled as Nat with explicit reductions modulo 2^32
(the WeakHash32 buffer holds UInt32 values) and 2^64 (IColumn::Selector
holds UInt64 values).  Collaborators that live outside this repository
(WeakHash32, IColumn::updateWeakHash32, IColumn::scatter) are modelled from
the spec, as stated in their doc comments.
-/

namespace SplittingByHash

/-- Result statuses of IProcessor::prepare, restricted to the four values the
two transforms return. -/
inductive Status
  | NeedData
  | PortFull
  | Finished
  | Ready
  deriving DecidableEq, Repr

/-- The only error code thrown by this translation unit (ErrorCodes::LOGICAL_ERROR). -/
inductive PipelineError
  | logical_error (msg : String)
  deriving DecidableEq, Repr

/-- A chunk: an ordered list of equal-length columns plus a row count.
Cell values come from an arbitrary type alpha.  The equal-length invariant
is carried as a hypothesis where theorems need it. -/
structure Chunk (α : Type) where
  columns : List (List α)
  numRows : Nat
  deriving DecidableEq, Repr

/-- Chunk::hasRows: the stored row count is nonzero. -/
def Chunk.hasRows (c : Chunk α) : Bool :=
  c.numRows != 0

/-- The empty chunk (used only as a getD default for list lookups). -/
def Chunk.empty : Chunk α :=
  { columns := [], numRows := 0 }

/-! ## Partition engine (lines 48-107 of the source) -/

/-- fillSelector, per-row mapping (source lines 67-72):
the 32-bit hash value is widened to 64 bits, multiplied by num_outputs in
64-bit arithmetic (hence reduced modulo 2^64), then shifted right by 32. -/
def fillSelectorEntry (numOutputs h : Nat) : Nat :=
  ((h * numOutputs) % 2 ^ 64) >>> 32

/-- fillSelector (source lines 59-73): the selector has one entry per row of
the hash buffer, each computed by fillSelectorEntry. -/
def fillSelector (hashData : List Nat) (numOutputs : Nat) : List Nat :=
  hashData.map (fillSelectorEntry numOutputs)

/-- Modelled from the spec: WeakHash32::reset sizes the per-row 32-bit hash
buffer to the row count and fills it uniformly with the initial value
(spec 4.1 step 1: initialize the Hash Buffer sized to the row count).
WeakHash32 itself is an external collaborator, not part of src/. -/
def weakHashReset (numRows : Nat) : List Nat :=
  List.replicate numRows 0

/-- Modelled from the spec: IColumn::updateWeakHash32 folds the column's
per-row contribution into the prior 32-bit hash state through a
deterministic per-row function upd (spec 4.1 step 1: an incremental,
order-sensitive hash combining the prior buffer state with the next
column's value; the collaborator is deterministic in both).  The result is
reduced modulo 2^32 because the buffer stores UInt32 values. -/
def updateWeakHash32 (upd : α → Nat → Nat) (col : List α) (hash : List Nat) : List Nat :=
  List.zipWith (fun a h => upd a h % 2 ^ 32) col hash

/-- calculateWeakHash32 (source lines 48-57): reset the buffer to the chunk's
row count, then fold each key column into it, in key-column order. -/
def calculateWeakHash32 (upd : α → Nat → Nat) (columns : List (List α))
    (keyColumns : List Nat) (numRows : Nat) : List Nat :=
  keyColumns.foldl (fun h k => updateWeakHash32 upd (columns.getD k []) h)
    (weakHashReset numRows)

/-- Source row indices assigned to bucket i, in source order: the rows r of
the selector whose entry equals i. -/
def bucketRows (selector : List Nat) (i : Nat) : List Nat :=
  (List.range selector.length).filter (fun r => selector.getD r 0 = i)

/-- Modelled from the spec: IColumn::scatter (an external collaborator, not
part of src/) distributes each row of the column to the fragment named by
its selector entry, preserving source row order within each fragment
(spec 4.1 step 3 and 6: scatter-by-bucket-array producing N column
fragments preserving row order). -/
def scatterColumn (numFragments : Nat) (selector : List Nat) (col : List α) :
    List (List α) :=
  (List.range numFragments).map
    (fun i => (bucketRows selector i).filterMap (fun r => col[r]?))

/-- splitChunk (source lines 75-107): scatter every column with the shared
selector; result chunk i collects fragment i of every column, and its row
count is the size of the first column's fragment i.  The source reuses the
chunk_info's chunk vector across invocations, but each slot is fully
overwritten (detachColumns / clear / setColumns) whenever the input has at
least one column, which the splitter's construction checks guarantee. -/
def splitChunk (chunk : Chunk α) (selector : List Nat) (numOutputs : Nat) :
    List (Chunk α) :=
  let scatters := chunk.columns.map (scatterColumn numOutputs selector)
  (List.range numOutputs).map fun i =>
    { columns := scatters.map (fun s => s.getD i [])
      numRows := ((scatters.getD 0 []).getD i []).length }

/-- The selector computed by SplittingByHashTransform::transform for a chunk
(source lines 118-119): hash the key columns, then fill the selector. -/
def rowSelector (upd : α → Nat → Nat) (keyColumns : List Nat) (numOutputs : Nat)
    (chunk : Chunk α) : List Nat :=
  fillSelector (calculateWeakHash32 upd chunk.columns keyColumns chunk.numRows) numOutputs

/-- SplittingByHashTransform::transform (source lines 109-121), reduced to
its data content: the list of sub-chunks stored into the carrier chunk's
ChunkInfoWithChunks attachment. -/
def SplittingByHashTransform.transform (upd : α → Nat → Nat) (keyColumns : List Nat)
    (numOutputs : Nat) (chunk : Chunk α) : List (Chunk α) :=
  splitChunk chunk (rowSelector upd keyColumns numOutputs chunk) numOutputs

/-! ## Constructors (lines 16-46 of the source) -/

/-- Configuration carried by a successfully constructed SplittingByHashTransform. -/
structure SplitterConfig where
  numOutputs : Nat
  keyColumns : List Nat
  deriving DecidableEq, Repr

/-- SplittingByHashTransform constructor (source lines 16-38): throws
LOGICAL_ERROR for at most 1 output, an empty key-column set, or a key-column
index not below the header's column count; otherwise yields the configured
stage. -/
def SplittingByHashTransform.construct (headerColumns numOutputs : Nat)
    (keyColumns : List Nat) : Except PipelineError SplitterConfig :=
  if numOutputs ≤ 1 then
    .error (.logical_error "SplittingByHashTransform expects more than 1 outputs")
  else if keyColumns.isEmpty then
    .error (.logical_error "SplittingByHashTransform cannot split by empty set of key columns")
  else if keyColumns.any (fun column => headerColumns ≤ column) then
    .error (.logical_error "Invalid column number")
  else
    .ok { numOutputs := numOutputs, keyColumns := keyColumns }

/-- ResizeByHashTransform constructor (source lines 40-46): throws
LOGICAL_ERROR for at most 1 output; otherwise yields the configured output
count. -/
def ResizeByHashTransform.construct (numOutputs : Nat) : Except PipelineError Nat :=
  if numOutputs ≤ 1 then
    .error (.logical_error "ResizeByHashTransform expects more than 1 outputs")
  else
    .ok numOutputs

/-! ## Fan-out stage state machine (lines 123-231 of the source) -/

/-- One output port of the ResizeByHashTransform, as the transform observes
and drives it: the finished flag, whether a push is currently accepted, and
the chunks pushed so far (oldest first). -/
structure OutPort (α : Type) where
  finished : Bool
  canPush : Bool
  pushed : List (Chunk α)
  deriving DecidableEq, Repr

/-- The input port: the upstream-finished flag, the needed and closed flags
driven by the transform, and the queue of pending envelopes.  An envelope is
the zero-row carrier chunk reduced to its attachment: some chunks when it
carries a ChunkInfoWithChunks, none when the attachment is missing or of a
different ChunkInfo type (typeid_cast then yields a null pointer). -/
structure InPort (α : Type) where
  finished : Bool
  needed : Bool
  closed : Bool
  queue : List (Option (List (Chunk α)))
  deriving DecidableEq, Repr

/-- InputPort::hasData: an envelope is pending. -/
def InPort.hasData (p : InPort α) : Bool :=
  !p.queue.isEmpty

/-- The mutable state of a ResizeByHashTransform. -/
structure RState (α : Type) where
  input : InPort α
  outputs : List (OutPort α)
  inputChunk : Option (List (Chunk α))
  outputChunks : List (Chunk α)
  wasOutputProcessed : List Bool
  isGeneratingPhase : Bool
  deriving DecidableEq, Repr

/-- First loop of prepareConsume (source lines 137-147), which walks the
outputs in order: none models the early `return Status::PortFull` taken at
the first non-finished output that cannot push; some b models falling out of
the loop with all_finished = b. -/
def checkOutputs : List (OutPort α) → Option Bool
  | [] => some true
  | o :: rest =>
    if o.finished then
      checkOutputs rest
    else if !o.canPush then
      none
    else
      (checkOutputs rest).map (fun _ => false)

/-- ResizeByHashTransform::prepareConsume (source lines 131-174): check the
outputs; if all are finished, close the input and finish; otherwise, if the
input is finished, finish every output and finish; otherwise mark the input
needed and either wait for data or pull one envelope and switch to the
generating phase. -/
def prepareConsume (s : RState α) : Status × RState α :=
  match checkOutputs s.outputs with
  | none => (.PortFull, s)
  | some true =>
    (.Finished, { s with input := { s.input with closed := true } })
  | some false =>
    if s.input.finished then
      (.Finished, { s with outputs := s.outputs.map (fun o => { o with finished := true }) })
    else
      let s := { s with input := { s.input with needed := true } }
      match s.input.queue with
      | [] => (.NeedData, s)
      | env :: rest =>
        (.Ready,
          { s with
              input := { s.input with queue := rest }
              inputChunk := env
              isGeneratingPhase := true })

/-- Instrumentation of one prepareGenerate loop pass: which readiness-table
indices were read and written, and which output indices were pushed, all in
iteration order.  Out-of-bounds table accesses are undefined behaviour in
the source; the trace makes every accessed index visible so that theorems
can speak about bounds without fixing a meaning for the undefined case. -/
structure GenTrace where
  flagReads : List Nat
  flagWrites : List Nat
  pushes : List Nat
  deriving DecidableEq, Repr

/-- Result of the prepareGenerate loop (source lines 178-206) over the
remaining outputs: updated outputs, updated readiness table, the
has_full_ports and all_outputs_processed accumulators, and the trace. -/
structure GenLoopResult (α : Type) where
  outputs : List (OutPort α)
  table : List Bool
  hasFullPorts : Bool
  allProcessed : Bool
  trace : GenTrace
  deriving DecidableEq, Repr

/-- The prepareGenerate loop (source lines 181-206).  The source increments
chunk_number immediately after fetching output_chunks[chunk_number], so for
the output at position i the chunk comes from index i while the readiness
table is read and written at index i + 1.  Reads of the table are modelled
with getD (default false) and writes with List.set (out-of-range set is a
no-op); both choices are only stand-ins for behaviour the source leaves
undefined when the index is out of bounds, which the trace records. -/
def genLoop (outputChunks : List (Chunk α)) :
    Nat → List (OutPort α) → List Bool → GenLoopResult α
  | _, [], table =>
    { outputs := [], table := table, hasFullPorts := false, allProcessed := true
      trace := { flagReads := [], flagWrites := [], pushes := [] } }
  | i, o :: rest, table =>
    let chunk := outputChunks.getD i Chunk.empty
    let flagIdx := i + 1
    if table.getD flagIdx false then
      let r := genLoop outputChunks (i + 1) rest table
      { r with
          outputs := o :: r.outputs
          trace := { r.trace with flagReads := flagIdx :: r.trace.flagReads } }
    else if !chunk.hasRows then
      let r := genLoop outputChunks (i + 1) rest table
      { r with
          outputs := o :: r.outputs
          trace := { r.trace with flagReads := flagIdx :: r.trace.flagReads } }
    else if o.finished then
      let r := genLoop outputChunks (i + 1) rest table
      { r with
          outputs := o :: r.outputs
          trace := { r.trace with flagReads := flagIdx :: r.trace.flagReads } }
    else if !o.canPush then
      let r := genLoop outputChunks (i + 1) rest table
      { r with
          outputs := o :: r.outputs
          hasFullPorts := true
          allProcessed := false
          trace := { r.trace with flagReads := flagIdx :: r.trace.flagReads } }
    else
      let o := { o with pushed := o.pushed ++ [chunk] }
      let table := table.set flagIdx true
      let r := genLoop outputChunks (i + 1) rest table
      { r with
          outputs := o :: r.outputs
          hasFullPorts := true
          trace :=
            { flagReads := flagIdx :: r.trace.flagReads
              flagWrites := flagIdx :: r.trace.flagWrites
              pushes := i :: r.trace.pushes } }

/-- Result of prepareGenerate before the tail call into prepareConsume:
the state after the loop and the phase update, plus the loop accumulators
and the trace. -/
structure GenCoreResult (α : Type) where
  state : RState α
  hasFullPorts : Bool
  allProcessed : Bool
  trace : GenTrace
  deriving DecidableEq, Repr

/-- ResizeByHashTransform::prepareGenerate, loop and phase update only
(source lines 178-210): run the loop over the outputs, then leave the
generating phase when all outputs are processed. -/
def prepareGenerateCore (s : RState α) : GenCoreResult α :=
  let r := genLoop s.outputChunks 0 s.outputs s.wasOutputProcessed
  { state :=
      { s with
          outputs := r.outputs
          wasOutputProcessed := r.table
          isGeneratingPhase := if r.allProcessed then false else s.isGeneratingPhase }
    hasFullPorts := r.hasFullPorts
    allProcessed := r.allProcessed
    trace := r.trace }

/-- ResizeByHashTransform::prepareGenerate (source lines 176-217): after the
loop, report PortFull when some output still held data this pass, and
otherwise fall through into prepareConsume within the same call. -/
def prepareGenerate (s : RState α) : Status × RState α :=
  let c := prepareGenerateCore s
  if c.hasFullPorts then
    (.PortFull, c.state)
  else
    prepareConsume c.state

/-- ResizeByHashTransform::prepare (source lines 123-129). -/
def ResizeByHashTransform.prepare (s : RState α) : Status × RState α :=
  if s.isGeneratingPhase then
    prepareGenerate s
  else
    prepareConsume s

/-- ResizeByHashTransform::work (source lines 219-231): a missing or
wrong-typed attachment on the pulled envelope is a LOGICAL_ERROR; the
attachment's chunks are swapped into output_chunks; a count differing from
the number of outputs is a LOGICAL_ERROR (the exception aborts the query, so
the error case carries no state); otherwise the readiness table is reset to
all-false with one entry per sub-chunk. -/
def ResizeByHashTransform.work (s : RState α) : Except PipelineError (RState α) :=
  match s.inputChunk with
  | none =>
    .error (.logical_error "ResizeByHashTransform expected ChunkInfo for input chunk")
  | some chunks =>
    if chunks.length ≠ s.outputs.length then
      .error (.logical_error "ResizeByHashTransform got unexpected number of chunks for input")
    else
      .ok
        { s with
            inputChunk := some s.outputChunks
            outputChunks := chunks
            wasOutputProcessed := List.replicate chunks.length false }

/-! ## Theorems -/

/-- The 64-bit product in fillSelectorEntry does not wrap when the hash is a
32-bit value and the output count is at most 2^32, so the entry is the exact
floor of h * N / 2^32. -/
theorem fillSelectorEntry_eq_div (N x : Nat) (hx : x < 2 ^ 32) (hN32 : N ≤ 2 ^ 32) :
    fillSelectorEntry N x = x * N / 2 ^ 32 := by
  have hlt : x * N < 2 ^ 64 := by
    calc x * N ≤ (2 ^ 32 - 1) * N := Nat.mul_le_mul_right N (by omega)
    _ ≤ (2 ^ 32 - 1) * 2 ^ 32 := Nat.mul_le_mul_left _ hN32
    _ < 2 ^ 64 := by norm_num
  unfold fillSelectorEntry
  rw [Nat.shiftRight_eq_div_pow, Nat.mod_eq_of_lt hlt]

/-- C2 (counterexample): with N = 2^33 outputs and the valid 32-bit hash
value h = 2^31, the 64-bit product h * N wraps modulo 2^64, so the computed
bucket is not floor(h * N / 2^32): the code yields 0 while the claimed
formula yields 2^32. -/
theorem c2_counterexample_overflow :
    fillSelectorEntry (2 ^ 33) (2 ^ 31) ≠ 2 ^ 31 * 2 ^ 33 / 2 ^ 32 := by
  decide

/-- C2 (amended): for every 32-bit hash value h and every number of outputs
N with 2 ≤ N ≤ 2^32 (so that the 64-bit product h * N cannot wrap), the
bucket is floor(h * N / 2^32); in particular h = 0 maps to bucket 0 and
h = 2^32 - 1 maps to bucket N - 1, and the computed bucket lies in [0, N). -/
theorem c2_fillSelector_floor_amended (h N : Nat) (hh : h < 2 ^ 32)
    (hN2 : 2 ≤ N) (hN32 : N ≤ 2 ^ 32) :
    fillSelectorEntry N h = h * N / 2 ^ 32 ∧
    fillSelectorEntry N 0 = 0 ∧
    fillSelectorEntry N (2 ^ 32 - 1) = N - 1 ∧
    fillSelectorEntry N h < N := by
  have e32 : (2 : Nat) ^ 32 = 4294967296 := by norm_num
  refine ⟨fillSelectorEntry_eq_div N h hh hN32, ?_, ?_, ?_⟩
  · rw [fillSelectorEntry_eq_div N 0 (by norm_num) hN32]
    simp
  · rw [fillSelectorEntry_eq_div N (2 ^ 32 - 1) (by norm_num) hN32]
    apply Nat.div_eq_of_lt_le
    · rw [e32] at hN32 ⊢
      omega
    · rw [e32] at hN32 ⊢
      omega
  · rw [fillSelectorEntry_eq_div N h hh hN32]
    rw [Nat.div_lt_iff_lt_mul (by norm_num : 0 < (2 : Nat) ^ 32)]
    calc h * N < 2 ^ 32 * N := by
          exact Nat.mul_lt_mul_of_lt_of_le hh (Nat.le_refl N) (by omega)
    _ = N * 2 ^ 32 := Nat.mul_comm _ _

/-- Witness for the amended C2 at h = 5, N = 3. -/
theorem c2_fillSelector_floor_amended_witness :
    5 < 2 ^ 32 ∧ 2 ≤ 3 ∧ 3 ≤ 2 ^ 32 ∧
      (fillSelectorEntry 3 5 = 5 * 3 / 2 ^ 32 ∧
       fillSelectorEntry 3 0 = 0 ∧
       fillSelectorEntry 3 (2 ^ 32 - 1) = 3 - 1 ∧
       fillSelectorEntry 3 5 < 3) :=
  ⟨by norm_num, by norm_num, by norm_num,
    c2_fillSelector_floor_amended 5 3 (by norm_num) (by norm_num) (by norm_num)⟩

/-- C9: construction of the splitting stage throws a LOGICAL_ERROR exception
exactly when the number of outputs is below 2, the key-column set is empty,
or some key-column index is not below the header's column count; the fan-out
stage's construction throws exactly when the number of outputs is below 2.
In the failure cases the Except carries no stage configuration. -/
theorem c9_construct_error_iff (headerColumns numOutputs : Nat) (keyColumns : List Nat) :
    ((∃ msg, SplittingByHashTransform.construct headerColumns numOutputs keyColumns =
        .error (.logical_error msg)) ↔
      numOutputs < 2 ∨ keyColumns = [] ∨ ∃ c ∈ keyColumns, headerColumns ≤ c) ∧
    ((∃ msg, ResizeByHashTransform.construct numOutputs =
        .error (.logical_error msg)) ↔
      numOutputs < 2) := by
  constructor
  · unfold SplittingByHashTransform.construct
    split_ifs with h1 h2 h3
    · simp only [Except.error.injEq, PipelineError.logical_error.injEq, exists_eq]
      exact iff_of_true (Exists.intro _ rfl) (Or.inl (by omega))
    · simp only [Except.error.injEq, PipelineError.logical_error.injEq, exists_eq]
      exact iff_of_true (Exists.intro _ rfl) (Or.inr (Or.inl (by simpa using h2)))
    · simp only [Except.error.injEq, PipelineError.logical_error.injEq, exists_eq]
      refine iff_of_true (Exists.intro _ rfl) (Or.inr (Or.inr ?_))
      simpa using h3
    · constructor
      · rintro ⟨msg, hmsg⟩
        exact absurd hmsg (by simp)
      · intro hcond
        rcases hcond with hlt | hnil | ⟨c, hc, hcle⟩
        · exact absurd hlt (by omega)
        · exact absurd hnil (by simpa using h2)
        · exact absurd (by simpa using h3 : ∀ c ∈ keyColumns, c < headerColumns)
            (by push_neg; exact ⟨c, hc, hcle⟩)
  · unfold ResizeByHashTransform.construct
    split_ifs with h1
    · simp only [Except.error.injEq, PipelineError.logical_error.injEq, exists_eq]
      exact iff_of_true (Exists.intro _ rfl) (by omega)
    · constructor
      · rintro ⟨msg, hmsg⟩
        exact absurd hmsg (by simp)
      · intro hlt
        exact absurd hlt (by omega)

/-- The first prepareConsume loop falls through with all_finished = true
exactly when every output is finished. -/
theorem checkOutputs_some_true_iff (outs : List (OutPort α)) :
    checkOutputs outs = some true ↔ ∀ o ∈ outs, o.finished = true := by
  induction outs with
  | nil => simp [checkOutputs]
  | cons o rest ih =>
    by_cases hf : o.finished
    · simp [checkOutputs, hf, ih]
    · by_cases hc : o.canPush
      · cases hr : checkOutputs rest <;>
          simp [checkOutputs, hf, hc, hr, Bool.not_eq_true]
      · simp [checkOutputs, hf, hc, Bool.not_eq_true]

/-- If every non-finished output can push, the first prepareConsume loop
does not take the early PortFull exit. -/
theorem checkOutputs_ne_none_of_canPush (outs : List (OutPort α))
    (h : ∀ o ∈ outs, o.finished = false → o.canPush = true) :
    checkOutputs outs ≠ none := by
  induction outs with
  | nil => simp [checkOutputs]
  | cons o rest ih =>
    have hrest : checkOutputs rest ≠ none :=
      ih fun o' ho' => h o' (List.mem_cons_of_mem _ ho')
    by_cases hf : o.finished
    · simpa [checkOutputs, hf] using hrest
    · have hcp : o.canPush = true :=
        h o (List.mem_cons_self _ _) (by simpa using hf)
      cases hr : checkOutputs rest
      · exact absurd hr hrest
      · simp [checkOutputs, hf, hcp, hr]

/-- A state exhibiting the gap in C7: the input is finished and not every
output is finished, yet prepare does not return Finished, because the first
output cannot push and the loop takes the PortFull exit before the
input-finished check is reached. -/
def c7BlockedState : RState Nat :=
  { input := { finished := true, needed := false, closed := false, queue := [] }
    outputs :=
      [ { finished := false, canPush := false, pushed := [] },
        { finished := false, canPush := true, pushed := [] } ]
    inputChunk := none
    outputChunks := []
    wasOutputProcessed := []
    isGeneratingPhase := false }

/-- C7 (counterexample): in a Consuming-phase state whose input port is
finished but whose first output is unfinished and cannot push, prepare
returns PortFull, not Finished, and no output is finished by the call — the
claim's second case does not hold unconditionally. -/
theorem c7_counterexample_portfull :
    c7BlockedState.isGeneratingPhase = false ∧
    c7BlockedState.input.finished = true ∧
    (¬ ∀ o ∈ c7BlockedState.outputs, o.finished = true) ∧
    (ResizeByHashTransform.prepare c7BlockedState).1 ≠ Status.Finished := by
  decide

/-- C7 (amended): in the Consuming phase, if every output port is finished,
prepare closes the input and returns Finished; if instead the input port is
finished and every non-finished output can currently accept a push, prepare
finishes every output and returns Finished; and Finished is only ever
returned in one of those two situations (every output already finished, or
the input finished). -/
theorem c7_termination_amended (s : RState α) (hphase : s.isGeneratingPhase = false) :
    ((ResizeByHashTransform.prepare s).1 = Status.Finished →
      (∀ o ∈ s.outputs, o.finished = true) ∨ s.input.finished = true) ∧
    ((∀ o ∈ s.outputs, o.finished = true) →
      (ResizeByHashTransform.prepare s).1 = Status.Finished ∧
      ((ResizeByHashTransform.prepare s).2).input.closed = true) ∧
    (s.input.finished = true →
      (∀ o ∈ s.outputs, o.finished = false → o.canPush = true) →
      (ResizeByHashTransform.prepare s).1 = Status.Finished ∧
      ∀ o ∈ ((ResizeByHashTransform.prepare s).2).outputs, o.finished = true) := by
  have hp : ResizeByHashTransform.prepare s = prepareConsume s := by
    simp [ResizeByHashTransform.prepare, hphase]
  rw [hp]
  cases hco : checkOutputs s.outputs with
  | none =>
    refine ⟨?_, ?_, ?_⟩
    · intro hfin
      simp [prepareConsume, hco] at hfin
    · intro hall
      exact absurd hco (by simp [(checkOutputs_some_true_iff s.outputs).mpr hall])
    · intro hin hcan
      exact absurd hco (checkOutputs_ne_none_of_canPush s.outputs hcan)
  | some b =>
    cases b with
    | true =>
      have hall := (checkOutputs_some_true_iff s.outputs).mp hco
      refine ⟨fun _ => Or.inl hall, fun _ => ?_, fun _ _ => ?_⟩
      · simp [prepareConsume, hco]
      · simpa [prepareConsume, hco] using hall
    | false =>
      by_cases hin : s.input.finished
      · refine ⟨fun _ => Or.inr hin, ?_, fun _ _ => ?_⟩
        · intro hall
          have : checkOutputs s.outputs = some true :=
            (checkOutputs_some_true_iff s.outputs).mpr hall
          rw [hco] at this
          simp at this
        · constructor
          · simp [prepareConsume, hco, hin]
          · intro o ho
            simp only [prepareConsume, hco, hin] at ho
            simp only [if_true] at ho
            rcases List.mem_map.mp (by simpa using ho) with ⟨o', _, rfl⟩
            rfl
      · refine ⟨?_, ?_, ?_⟩
        · intro hfin
          cases hq : s.input.queue <;>
            simp [prepareConsume, hco, hin, hq] at hfin
        · intro hall
          have : checkOutputs s.outputs = some true :=
            (checkOutputs_some_true_iff s.outputs).mpr hall
          rw [hco] at this
          simp at this
        · intro hin2 _
          exact absurd hin2 (by simpa using hin)

/-- Witness for the amended C7: a two-output state with all outputs finished
and an input-finished state with a pushable output both reach Finished. -/
theorem c7_termination_amended_witness :
    c7BlockedState.isGeneratingPhase = false ∧
    ({ c7BlockedState with input := { c7BlockedState.input with finished := true } } :
        RState Nat).input.finished = true ∧
    (∀ o ∈ (c7BlockedState.outputs.map fun o => { o with canPush := true }),
        o.finished = false → o.canPush = true) ∧
    ((ResizeByHashTransform.prepare
        { c7BlockedState with
            outputs := c7BlockedState.outputs.map fun o => { o with canPush := true } }).1 =
      Status.Finished ∧
     ∀ o ∈ ((ResizeByHashTransform.prepare
        { c7BlockedState with
            outputs := c7BlockedState.outputs.map fun o => { o with canPush := true } }).2).outputs,
        o.finished = true) :=
  ⟨rfl, rfl, by decide,
    ((c7_termination_amended
        { c7BlockedState with
            outputs := c7BlockedState.outputs.map fun o => { o with canPush := true } }
        (by decide)).2.2 (by decide) (by decide))⟩

/-- When the generate loop saw no output holding pushable data
(has_full_ports false), every output was skipped, so all_outputs_processed
is still true: the source comment at line 214. -/
theorem genLoop_allProcessed_of_not_full (outputChunks : List (Chunk α)) :
    ∀ (outs : List (OutPort α)) (i : Nat) (table : List Bool),
      (genLoop outputChunks i outs table).hasFullPorts = false →
      (genLoop outputChunks i outs table).allProcessed = true := by
  intro outs
  induction outs with
  | nil => simp [genLoop]
  | cons o rest ih =>
    intro i table h
    by_cases h1 : table.getD (i + 1) false
    · simp only [genLoop, h1, if_true] at h ⊢
      exact ih _ _ h
    · by_cases h2 : (outputChunks.getD i Chunk.empty).hasRows
      · by_cases h3 : o.finished
        · simp only [genLoop, h1, h2, h3] at h ⊢
          simp at h ⊢
          exact ih _ _ h
        · by_cases h4 : o.canPush
          · simp only [genLoop, h1, h2, h3, h4] at h ⊢
            simp at h
          · simp only [genLoop, h1, h2, h3, h4] at h ⊢
            simp at h
      · simp only [genLoop, h1, h2] at h ⊢
        simp at h ⊢
        exact ih _ _ h

/-- The readiness-table indices read by one pass of the generate loop over
outputs at positions i, i+1, ... are exactly i+1, i+2, ...: the source
increments chunk_number before reading was_output_processed, so every read
is shifted up by one from the output's position. -/
theorem genLoop_flagReads (outputChunks : List (Chunk α)) :
    ∀ (outs : List (OutPort α)) (i : Nat) (table : List Bool),
      (genLoop outputChunks i outs table).trace.flagReads =
        List.range' (i + 1) outs.length := by
  intro outs
  induction outs with
  | nil => simp [genLoop]
  | cons o rest ih =>
    intro i table
    rw [List.length_cons, List.range'_succ]
    by_cases h1 : table.getD (i + 1) false
    · simp only [genLoop, h1, if_true]
      simpa using ih (i + 1) table
    · by_cases h2 : (outputChunks.getD i Chunk.empty).hasRows
      · by_cases h3 : o.finished
        · simp only [genLoop, h1, h2, h3]
          simp only [Bool.not_true, Bool.false_eq_true, if_false, if_true,
            Bool.not_eq_true]
          simpa using ih (i + 1) table
        · by_cases h4 : o.canPush
          · simp only [genLoop, h1, h2, h3, h4]
            simp only [Bool.not_true, Bool.not_false, Bool.false_eq_true,
              if_false, if_true]
            simpa using ih (i + 1) (table.set (i + 1) true)
          · simp only [genLoop, h1, h2, h3, h4]
            simp only [Bool.not_true, Bool.not_false, Bool.false_eq_true,
              if_false, if_true]
            simpa using ih (i + 1) table
      · simp only [genLoop, h1, h2]
        simpa using ih (i + 1) table

/-- Every delivery recorded by the generate loop writes the readiness table
at the pushed output's position plus one. -/
theorem genLoop_flagWrites_eq (outputChunks : List (Chunk α)) :
    ∀ (outs : List (OutPort α)) (i : Nat) (table : List Bool),
      (genLoop outputChunks i outs table).trace.flagWrites =
        (genLoop outputChunks i outs table).trace.pushes.map (· + 1) := by
  intro outs
  induction outs with
  | nil => simp [genLoop]
  | cons o rest ih =>
    intro i table
    by_cases h1 : table.getD (i + 1) false
    · simp only [genLoop, h1, if_true]
      exact ih (i + 1) table
    · by_cases h2 : (outputChunks.getD i Chunk.empty).hasRows
      · by_cases h3 : o.finished
        · simp only [genLoop, h1, h2, h3]
          simp only [Bool.not_eq_true, if_true, if_false]
          exact ih (i + 1) table
        · by_cases h4 : o.canPush
          · simp only [genLoop, h1, h2, h3, h4]
            simp only [Bool.not_true, Bool.not_false, Bool.false_eq_true,
              if_false, if_true, List.map_cons]
            rw [ih (i + 1) (table.set (i + 1) true)]
          · simp only [genLoop, h1, h2, h3, h4]
            simp only [Bool.not_true, Bool.not_false, Bool.false_eq_true,
              if_false, if_true]
            exact ih (i + 1) table
      · simp only [genLoop, h1, h2]
        simpa using ih (i + 1) table

/-- C5: refuted as stated — in every Generating pass over n outputs (with
the readiness table sized n, as work() leaves it), prepareGenerate reads the
readiness table at index n, which is not strictly less than the table's
length: the source increments chunk_number before the table access, so
output i uses index i + 1 and the last output accesses one slot past the
end.  In the C++ source this read (and the corresponding write when the
last output is pushed) is out of bounds of the N-entry vector. -/
theorem c5_generate_reads_table_out_of_bounds (s : RState α) (n : Nat)
    (houts : s.outputs.length = n) (htab : s.wasOutputProcessed.length = n)
    (hn : 1 ≤ n) :
    n ∈ (prepareGenerateCore s).trace.flagReads ∧
      ¬ n < s.wasOutputProcessed.length := by
  refine ⟨?_, by omega⟩
  have h := genLoop_flagReads s.outputChunks s.outputs 0 s.wasOutputProcessed
  simp only [prepareGenerateCore]
  rw [h, houts]
  exact List.mem_range'_1.mpr ⟨by omega, by omega⟩

/-- Witness for C5 at a concrete two-output Generating state. -/
theorem c5_generate_reads_table_out_of_bounds_witness :
    (2 ∈ (prepareGenerateCore
      { input := { finished := false, needed := false, closed := false, queue := [] }
        outputs :=
          [ { finished := false, canPush := true, pushed := [] },
            { finished := false, canPush := true, pushed := [] } ]
        inputChunk := none
        outputChunks :=
          [ { columns := [[10]], numRows := 1 }, { columns := [[20]], numRows := 1 } ]
        wasOutputProcessed := [false, false]
        isGeneratingPhase := true : RState Nat }).trace.flagReads ∧
      ¬ 2 < ([false, false] : List Bool).length) :=
  c5_generate_reads_table_out_of_bounds _ 2 rfl rfl (by omega)

/-- C4: the delivery flag recorded when the last of the n outputs is pushed
is written at readiness-table index n, one slot past the n-entry table: the
at-most-once bookkeeping for the last output is not backed by the table at
all (in the C++ source the access is out of bounds, undefined behaviour),
so the Output Readiness Table cannot be what enforces at-most-once delivery
for that output. -/
theorem c4_last_output_delivery_flag_out_of_bounds (s : RState α) (n : Nat)
    (houts : s.outputs.length = n) (htab : s.wasOutputProcessed.length = n)
    (hn : 1 ≤ n)
    (hpush : n - 1 ∈ (prepareGenerateCore s).trace.pushes) :
    n ∈ (prepareGenerateCore s).trace.flagWrites ∧
      ¬ n < s.wasOutputProcessed.length := by
  refine ⟨?_, by omega⟩
  have h := genLoop_flagWrites_eq s.outputChunks s.outputs 0 s.wasOutputProcessed
  simp only [prepareGenerateCore] at hpush ⊢
  rw [h]
  have hsucc : n - 1 + 1 = n := by omega
  exact hsucc ▸ List.mem_map_of_mem (· + 1) hpush

/-- Witness for C4: a two-output state whose second (last) output is pushed
during the pass; the flag write lands at index 2 with a 2-entry table. -/
theorem c4_last_output_delivery_flag_out_of_bounds_witness :
    ((2 - 1) ∈ (prepareGenerateCore
      { input := { finished := false, needed := false, closed := false, queue := [] }
        outputs :=
          [ { finished := true, canPush := false, pushed := [] },
            { finished := false, canPush := true, pushed := [] } ]
        inputChunk := none
        outputChunks :=
          [ { columns := [[10]], numRows := 1 }, { columns := [[20]], numRows := 1 } ]
        wasOutputProcessed := [false, false]
        isGeneratingPhase := true : RState Nat }).trace.pushes) ∧
    (2 ∈ (prepareGenerateCore
      { input := { finished := false, needed := false, closed := false, queue := [] }
        outputs :=
          [ { finished := true, canPush := false, pushed := [] },
            { finished := false, canPush := true, pushed := [] } ]
        inputChunk := none
        outputChunks :=
          [ { columns := [[10]], numRows := 1 }, { columns := [[20]], numRows := 1 } ]
        wasOutputProcessed := [false, false]
        isGeneratingPhase := true : RState Nat }).trace.flagWrites ∧
      ¬ 2 < ([false, false] : List Bool).length) :=
  ⟨by decide, c4_last_output_delivery_flag_out_of_bounds _ 2 rfl rfl (by omega) (by decide)⟩

/-- A Generating-phase state in which both sub-batches are non-empty and
both outputs can push: a single prepare call delivers everything. -/
def c6AllPushState : RState Nat :=
  { input := { finished := false, needed := false, closed := false, queue := [] }
    outputs :=
      [ { finished := false, canPush := true, pushed := [] },
        { finished := false, canPush := true, pushed := [] } ]
    inputChunk := none
    outputChunks :=
      [ { columns := [[10]], numRows := 1 }, { columns := [[20]], numRows := 1 } ]
    wasOutputProcessed := [false, false]
    isGeneratingPhase := true }

/-- C6 (counterexample): a Generating call that pushes the final pending
sub-batches in that same call leaves every output processed and switches the
phase back to Consuming, yet returns PortFull — a retry-later status — and
does not evaluate the Consuming rules within the call (those rules, run on
the resulting state, would report NeedData, not PortFull). -/
theorem c6_counterexample_portfull_after_full_delivery :
    (prepareGenerateCore c6AllPushState).allProcessed = true ∧
    (ResizeByHashTransform.prepare c6AllPushState).2.isGeneratingPhase = false ∧
    (ResizeByHashTransform.prepare c6AllPushState).1 = Status.PortFull ∧
    (prepareConsume (ResizeByHashTransform.prepare c6AllPushState).2).1 =
      Status.NeedData := by
  decide

/-- C6 (amended): a Generating prepare call falls through into the Consuming
rules within the same call exactly when no output held a pushable non-empty
sub-batch during the pass (has_full_ports false, which forces every output
to count as processed); whenever some output held data — including calls in
which every pending sub-batch is successfully pushed — the call returns
PortFull, with the phase already reset to Consuming if all outputs ended up
processed, and the Consuming rules run only at the next call. -/
theorem c6_generate_reenters_consume_amended (s : RState α)
    (hphase : s.isGeneratingPhase = true) :
    ((prepareGenerateCore s).hasFullPorts = false →
      (prepareGenerateCore s).allProcessed = true ∧
      (prepareGenerateCore s).state.isGeneratingPhase = false ∧
      ResizeByHashTransform.prepare s = prepareConsume (prepareGenerateCore s).state) ∧
    ((prepareGenerateCore s).hasFullPorts = true →
      ResizeByHashTransform.prepare s = (Status.PortFull, (prepareGenerateCore s).state) ∧
      ((prepareGenerateCore s).allProcessed = true →
        (prepareGenerateCore s).state.isGeneratingPhase = false)) := by
  have hp : ResizeByHashTransform.prepare s = prepareGenerate s := by
    simp [ResizeByHashTransform.prepare, hphase]
  constructor
  · intro hnf
    have hap : (prepareGenerateCore s).allProcessed = true := by
      have := genLoop_allProcessed_of_not_full s.outputChunks s.outputs 0
        s.wasOutputProcessed (by simpa [prepareGenerateCore] using hnf)
      simpa [prepareGenerateCore] using this
    refine ⟨hap, ?_, ?_⟩
    · simp only [prepareGenerateCore] at hap ⊢
      simp [hap]
    · rw [hp]
      simp [prepareGenerate, hnf]
  · intro hf
    refine ⟨?_, ?_⟩
    · rw [hp]
      simp [prepareGenerate, hf]
    · intro hap
      simp only [prepareGenerateCore] at hap ⊢
      simp [hap]

/-- Witness for the amended C6 at the concrete all-push state (both
conjuncts are instantiated; the first is vacuous there since the pass held
full ports). -/
theorem c6_generate_reenters_consume_amended_witness :
    c6AllPushState.isGeneratingPhase = true ∧
    (prepareGenerateCore c6AllPushState).hasFullPorts = true ∧
    (ResizeByHashTransform.prepare c6AllPushState =
        (Status.PortFull, (prepareGenerateCore c6AllPushState).state) ∧
      ((prepareGenerateCore c6AllPushState).allProcessed = true →
        (prepareGenerateCore c6AllPushState).state.isGeneratingPhase = false)) :=
  ⟨rfl, by decide,
    (c6_generate_reenters_consume_amended c6AllPushState rfl).2 (by decide)⟩

/-- C8: work() on a pulled envelope whose attachment is missing or not a
ChunkInfoWithChunks raises LOGICAL_ERROR; with the attachment present, a
sub-batch count differing from the output count raises LOGICAL_ERROR and no
state results (the exception aborts processing before any delivery, with
nothing truncated or padded); otherwise the sub-batches are swapped into the
working set and the readiness table is reset to one false per output. -/
theorem c8_work_unpack_envelope (s : RState α) :
    (s.inputChunk = none →
      ResizeByHashTransform.work s =
        .error (.logical_error "ResizeByHashTransform expected ChunkInfo for input chunk")) ∧
    (∀ chunks, s.inputChunk = some chunks →
      (chunks.length ≠ s.outputs.length →
        ∃ msg, ResizeByHashTransform.work s = .error (.logical_error msg)) ∧
      (chunks.length = s.outputs.length →
        ∃ s', ResizeByHashTransform.work s = .ok s' ∧
          s'.outputChunks = chunks ∧
          s'.wasOutputProcessed = List.replicate s.outputs.length false ∧
          s'.outputs = s.outputs ∧
          s'.input = s.input)) := by
  constructor
  · intro hnone
    simp [ResizeByHashTransform.work, hnone]
  · intro chunks hsome
    constructor
    · intro hne
      refine ⟨"ResizeByHashTransform got unexpected number of chunks for input", ?_⟩
      simp [ResizeByHashTransform.work, hsome, hne]
    · intro heq
      have hw : ResizeByHashTransform.work s = .ok
          { s with
              inputChunk := some s.outputChunks
              outputChunks := chunks
              wasOutputProcessed := List.replicate chunks.length false } := by
        simp [ResizeByHashTransform.work, hsome, heq]
      exact ⟨_, hw, rfl, by simp [heq], rfl, rfl⟩

/-- Witness for C8: a one-output state fed an attachment with two
sub-batches errors out; the same state fed one sub-batch succeeds with a
reset one-entry table. -/
theorem c8_work_unpack_envelope_witness :
    (({ input := { finished := false, needed := false, closed := false, queue := [] }
        outputs := [ { finished := false, canPush := true, pushed := [] } ]
        inputChunk := some [ Chunk.empty, Chunk.empty ]
        outputChunks := []
        wasOutputProcessed := []
        isGeneratingPhase := false : RState Nat }).inputChunk =
      some [ Chunk.empty, Chunk.empty ] ∧
     ([ (Chunk.empty : Chunk Nat), Chunk.empty ]).length ≠ 1 ∧
     ∃ msg, ResizeByHashTransform.work
        { input := { finished := false, needed := false, closed := false, queue := [] }
          outputs := [ { finished := false, canPush := true, pushed := [] } ]
          inputChunk := some [ Chunk.empty, Chunk.empty ]
          outputChunks := []
          wasOutputProcessed := []
          isGeneratingPhase := false : RState Nat } = .error (.logical_error msg)) :=
  ⟨rfl, by decide,
    ((c8_work_unpack_envelope _).2 [ Chunk.empty, Chunk.empty ] rfl).1 (by decide)⟩

/-- The hash buffer keeps one entry per row across the key-column folds. -/
theorem calculateWeakHash32_length (upd : α → Nat → Nat) (columns : List (List α))
    (keyColumns : List Nat) (n : Nat)
    (hlen : ∀ c ∈ columns, c.length = n)
    (hkeys : ∀ k ∈ keyColumns, k < columns.length) :
    (calculateWeakHash32 upd columns keyColumns n).length = n := by
  suffices h : ∀ (keys : List Nat) (acc : List Nat), (∀ k ∈ keys, k < columns.length) →
      acc.length = n →
      (keys.foldl (fun h k => updateWeakHash32 upd (columns.getD k []) h) acc).length = n by
    exact h keyColumns _ hkeys (by simp [weakHashReset])
  intro keys
  induction keys with
  | nil =>
    intro acc _ hacc
    simpa using hacc
  | cons k ks ih =>
    intro acc hk hacc
    rw [List.foldl_cons]
    refine ih _ (fun x hx => hk x (List.mem_cons_of_mem _ hx)) ?_
    have hkc : k < columns.length := hk k (List.mem_cons_self _ _)
    have hc : (columns.getD k []).length = n := by
      rw [List.getD_eq_getElem _ _ hkc]
      exact hlen _ (List.getElem_mem hkc)
    unfold updateWeakHash32
    rw [List.length_zipWith, hc, hacc]
    exact min_self n

/-- Every hash-buffer entry is a 32-bit value: the initial fill is zero and
every fold reduces modulo 2^32. -/
theorem calculateWeakHash32_lt (upd : α → Nat → Nat) (columns : List (List α))
    (keyColumns : List Nat) (n : Nat) :
    ∀ x ∈ calculateWeakHash32 upd columns keyColumns n, x < 2 ^ 32 := by
  suffices h : ∀ (keys : List Nat) (acc : List Nat), (∀ x ∈ acc, x < 2 ^ 32) →
      ∀ x ∈ keys.foldl (fun h k => updateWeakHash32 upd (columns.getD k []) h) acc,
        x < 2 ^ 32 by
    refine h keyColumns _ ?_
    intro x hx
    have := List.eq_of_mem_replicate hx
    omega
  intro keys
  induction keys with
  | nil =>
    intro acc hacc
    simpa using hacc
  | cons k ks ih =>
    intro acc hacc
    rw [List.foldl_cons]
    refine ih _ ?_
    intro x hx
    rw [List.mem_iff_getElem?] at hx
    obtain ⟨i, hi⟩ := hx
    unfold updateWeakHash32 at hi
    rw [List.getElem?_zipWith] at hi
    cases h1 : (columns.getD k [])[i]? with
    | none => rw [h1] at hi; simp at hi
    | some a =>
      cases h2 : acc[i]? with
      | none => rw [h1, h2] at hi; simp at hi
      | some b =>
        rw [h1, h2] at hi
        simp only [Option.some.injEq] at hi
        rw [← hi]
        exact Nat.mod_lt _ (by norm_num)

/-- Rows with getElem?-equal values in every key column get getElem?-equal
hash-buffer entries: each fold step combines equal inputs with equal states. -/
theorem calculateWeakHash32_getElem?_congr (upd : α → Nat → Nat)
    (columns : List (List α)) (keyColumns : List Nat) (n r1 r2 : Nat)
    (h1 : r1 < n) (h2 : r2 < n)
    (heq : ∀ k ∈ keyColumns, (columns.getD k [])[r1]? = (columns.getD k [])[r2]?) :
    (calculateWeakHash32 upd columns keyColumns n)[r1]? =
      (calculateWeakHash32 upd columns keyColumns n)[r2]? := by
  suffices h : ∀ (keys : List Nat) (acc : List Nat),
      (∀ k ∈ keys, (columns.getD k [])[r1]? = (columns.getD k [])[r2]?) →
      acc[r1]? = acc[r2]? →
      (keys.foldl (fun h k => updateWeakHash32 upd (columns.getD k []) h) acc)[r1]? =
        (keys.foldl (fun h k => updateWeakHash32 upd (columns.getD k []) h) acc)[r2]? by
    refine h keyColumns _ heq ?_
    simp [weakHashReset, List.getElem?_replicate, h1, h2]
  intro keys
  induction keys with
  | nil =>
    intro acc _ hacc
    simpa using hacc
  | cons k ks ih =>
    intro acc hk hacc
    rw [List.foldl_cons]
    refine ih _ (fun x hx => hk x (List.mem_cons_of_mem _ hx)) ?_
    have hcol := hk k (List.mem_cons_self _ _)
    unfold updateWeakHash32
    rw [List.getElem?_zipWith, List.getElem?_zipWith, hcol, hacc]

/-- Every selector entry computed from a 32-bit hash value lies below the
number of outputs, for any positive number of outputs. -/
theorem fillSelectorEntry_lt (N x : Nat) (hx : x < 2 ^ 32) (hN : 1 ≤ N) :
    fillSelectorEntry N x < N := by
  by_cases hN32 : N ≤ 2 ^ 32
  · rw [fillSelectorEntry_eq_div N x hx hN32]
    rw [Nat.div_lt_iff_lt_mul (by norm_num : 0 < (2 : Nat) ^ 32)]
    calc x * N < 2 ^ 32 * N := Nat.mul_lt_mul_of_lt_of_le hx (Nat.le_refl N) (by omega)
    _ = N * 2 ^ 32 := Nat.mul_comm _ _
  · unfold fillSelectorEntry
    rw [Nat.shiftRight_eq_div_pow]
    have hm : (x * N) % 2 ^ 64 < 2 ^ 64 := Nat.mod_lt _ (by norm_num)
    have : (x * N) % 2 ^ 64 / 2 ^ 32 < 2 ^ 32 := by
      rw [Nat.div_lt_iff_lt_mul (by norm_num : 0 < (2 : Nat) ^ 32)]
      calc (x * N) % 2 ^ 64 < 2 ^ 64 := hm
      _ = 2 ^ 32 * 2 ^ 32 := by norm_num
    omega

/-- Membership in a bucket's row list: exactly the in-range rows whose
selector entry names that bucket. -/
theorem mem_bucketRows (sel : List Nat) (i r : Nat) :
    r ∈ bucketRows sel i ↔ r < sel.length ∧ sel.getD r 0 = i := by
  simp [bucketRows, List.mem_filter, List.mem_range]

/-- Bucket row lists are strictly increasing: the filter keeps the order of
List.range. -/
theorem pairwise_bucketRows (sel : List Nat) (i : Nat) :
    (bucketRows sel i).Pairwise (· < ·) :=
  List.Pairwise.filter _ (List.pairwise_lt_range _)

/-- Reading a list back through getD over its index range reproduces it. -/
theorem map_getD_range (sel : List Nat) :
    (List.range sel.length).map (fun r => sel.getD r 0) = sel := by
  induction sel with
  | nil => simp
  | cons a tl ih =>
    rw [List.length_cons, List.range_succ_eq_map, List.map_cons, List.map_map]
    refine congrArg₂ _ rfl ?_
    calc List.map ((fun r => (a :: tl).getD r 0) ∘ Nat.succ) (List.range tl.length)
        = List.map (fun r => tl.getD r 0) (List.range tl.length) := by
          refine List.map_congr_left ?_
          intro r _
          simp [List.getD_cons_succ]
    _ = tl := ih

/-- The size of a bucket's row list is the number of selector entries naming
that bucket. -/
theorem length_bucketRows (sel : List Nat) (i : Nat) :
    (bucketRows sel i).length = sel.countP (fun x => x = i) := by
  unfold bucketRows
  rw [← List.countP_eq_length_filter]
  conv_rhs => rw [← map_getD_range sel]
  rw [List.countP_map]
  rfl

/-- Sums of pointwise sums of Nat-valued maps split. -/
theorem sum_map_add_nat {β : Type} (l : List β) (f g : β → Nat) :
    (l.map (fun x => f x + g x)).sum = (l.map f).sum + (l.map g).sum := by
  induction l with
  | nil => simp
  | cons a tl ih =>
    simp only [List.map_cons, List.sum_cons, ih]
    omega

/-- Summing the indicator of one value over List.range N counts it once
exactly when it is below N. -/
theorem sum_indicator_range (N a : Nat) :
    ((List.range N).map (fun i => if a = i then 1 else 0)).sum =
      if a < N then 1 else 0 := by
  induction N with
  | zero => simp
  | succ n ih =>
    rw [List.range_succ, List.map_append, List.sum_append, ih]
    simp only [List.map_cons, List.map_nil, List.sum_cons, List.sum_nil, Nat.add_zero]
    by_cases h2 : a = n
    · subst h2
      simp [Nat.lt_irrefl, Nat.lt_succ_self]
    · by_cases h1 : a < n
      · simp [h1, h2, Nat.lt_succ_of_lt h1]
      · have hn1 : ¬ a < n + 1 := by omega
        simp [h1, h2, hn1]

/-- The bucket sizes over all N buckets sum to the number of selector
entries, provided every entry names a bucket below N. -/
theorem sum_countP_range (sel : List Nat) (N : Nat) (hsel : ∀ x ∈ sel, x < N) :
    ((List.range N).map (fun i => sel.countP (fun x => x = i))).sum = sel.length := by
  induction sel with
  | nil => simp
  | cons a tl ih =>
    have ha : a < N := hsel a (List.mem_cons_self _ _)
    have ih' := ih (fun x hx => hsel x (List.mem_cons_of_mem _ hx))
    simp only [List.countP_cons, decide_eq_true_eq]
    rw [sum_map_add_nat, ih', sum_indicator_range]
    simp [ha]

/-- filterMap by getElem? keeps one element per in-range index. -/
theorem length_filterMap_getElem? (col : List α) (rs : List Nat)
    (h : ∀ r ∈ rs, r < col.length) :
    (rs.filterMap (fun r => col[r]?)).length = rs.length := by
  induction rs with
  | nil => simp
  | cons r tl ih =>
    have hr : r < col.length := h r (List.mem_cons_self _ _)
    rw [List.filterMap_cons, List.getElem?_eq_getElem hr]
    simp [ih (fun x hx => h x (List.mem_cons_of_mem _ hx))]

/-- Fragment i of a scattered column is the column restricted to bucket i's
row indices. -/
theorem scatterColumn_getD (N : Nat) (sel : List Nat) (col : List α) (i : Nat)
    (hi : i < N) :
    (scatterColumn N sel col).getD i [] =
      (bucketRows sel i).filterMap (fun r => col[r]?) := by
  unfold scatterColumn
  rw [List.getD_eq_getElem _ _ (by simpa using hi)]
  rw [List.getElem_map]
  rw [List.getElem_range]

/-- splitChunk with its local binding unfolded. -/
theorem splitChunk_def (chunk : Chunk α) (sel : List Nat) (N : Nat) :
    splitChunk chunk sel N = (List.range N).map fun i =>
      { columns := (chunk.columns.map (scatterColumn N sel)).map (fun s => s.getD i [])
        numRows := (((chunk.columns.map (scatterColumn N sel)).getD 0 []).getD i []).length } :=
  rfl

/-- Sub-chunk i of a split holds, for every input column, that column
restricted to bucket i's rows. -/
theorem splitChunk_getD_columns (chunk : Chunk α) (sel : List Nat) (N i : Nat)
    (hi : i < N) :
    ((splitChunk chunk sel N).getD i Chunk.empty).columns =
      chunk.columns.map
        (fun col => (bucketRows sel i).filterMap (fun r => col[r]?)) := by
  rw [splitChunk_def]
  rw [List.getD_eq_getElem _ _ (by simpa using hi), List.getElem_map, List.getElem_range]
  show (chunk.columns.map (scatterColumn N sel)).map (fun s => s.getD i []) = _
  rw [List.map_map]
  refine List.map_congr_left ?_
  intro col _
  exact scatterColumn_getD N sel col i hi

/-- With at least one column present, the first scattered column is the
scatter of the first column. -/
theorem getD_map_scatter_zero (chunk : Chunk α) (sel : List Nat) (N : Nat)
    (h0 : 0 < chunk.columns.length) :
    (chunk.columns.map (scatterColumn N sel)).getD 0 []
      = scatterColumn N sel (chunk.columns.getD 0 []) := by
  rcases hc : chunk.columns with _ | ⟨c0, cs⟩
  · rw [hc] at h0
    simp at h0
  · simp

/-- Sub-chunk i of a split carries bucket i's row count, taken from the
first column's fragment. -/
theorem splitChunk_getD_numRows (chunk : Chunk α) (sel : List Nat) (N i : Nat)
    (hi : i < N) (h0 : 0 < chunk.columns.length)
    (hfirst : ∀ r ∈ bucketRows sel i, r < (chunk.columns.getD 0 []).length) :
    ((splitChunk chunk sel N).getD i Chunk.empty).numRows =
      (bucketRows sel i).length := by
  rw [splitChunk_def]
  rw [List.getD_eq_getElem _ _ (by simpa using hi), List.getElem_map, List.getElem_range]
  show (((chunk.columns.map (scatterColumn N sel)).getD 0 []).getD i []).length = _
  rw [getD_map_scatter_zero chunk sel N h0]
  rw [scatterColumn_getD N sel _ i hi]
  exact length_filterMap_getElem? _ _ hfirst

/-- The selector computed by the transform has one entry per input row, and
every entry names a bucket below the number of outputs. -/
theorem rowSelector_length_and_lt (upd : α → Nat → Nat) (keyColumns : List Nat)
    (N : Nat) (chunk : Chunk α) (hN : 1 ≤ N)
    (hlen : ∀ c ∈ chunk.columns, c.length = chunk.numRows)
    (hkeys : ∀ k ∈ keyColumns, k < chunk.columns.length) :
    (rowSelector upd keyColumns N chunk).length = chunk.numRows ∧
    ∀ x ∈ rowSelector upd keyColumns N chunk, x < N := by
  constructor
  · unfold rowSelector fillSelector
    rw [List.length_map]
    exact calculateWeakHash32_length upd chunk.columns keyColumns chunk.numRows hlen hkeys
  · intro x hx
    unfold rowSelector fillSelector at hx
    rcases List.mem_map.mp hx with ⟨h, hh, rfl⟩
    exact fillSelectorEntry_lt N h
      (calculateWeakHash32_lt upd chunk.columns keyColumns chunk.numRows h hh) hN

/-- C1: the partition step (hashing the key columns, filling the selector,
splitting the chunk) produces exactly N sub-batches; their row counts sum to
the input row count; sub-batch i holds exactly bucket i's rows; and every
input row belongs to exactly one bucket.  The scatter collaborator is the
spec-modelled scatterColumn, which distributes each row to the fragment
named by its selector entry.  The hypotheses state the batch invariants
(equal-length columns, at least one column, valid key indices) that the
splitter's construction checks and the batch abstraction guarantee. -/
theorem c1_partition_row_conservation (upd : α → Nat → Nat) (keyColumns : List Nat)
    (N : Nat) (chunk : Chunk α)
    (hN : 2 ≤ N)
    (hcols : chunk.columns ≠ [])
    (hlen : ∀ c ∈ chunk.columns, c.length = chunk.numRows)
    (hkeys : ∀ k ∈ keyColumns, k < chunk.columns.length) :
    (SplittingByHashTransform.transform upd keyColumns N chunk).length = N ∧
    ((SplittingByHashTransform.transform upd keyColumns N chunk).map Chunk.numRows).sum
        = chunk.numRows ∧
    (∀ i, i < N →
      ((SplittingByHashTransform.transform upd keyColumns N chunk).getD i Chunk.empty).numRows
        = (bucketRows (rowSelector upd keyColumns N chunk) i).length) ∧
    (∀ r, r < chunk.numRows →
      ∃! i, i < N ∧ r ∈ bucketRows (rowSelector upd keyColumns N chunk) i) := by
  obtain ⟨hsellen, hselmem⟩ :=
    rowSelector_length_and_lt upd keyColumns N chunk (by omega) hlen hkeys
  have h0 : 0 < chunk.columns.length := List.length_pos.mpr hcols
  have hc0len : (chunk.columns.getD 0 []).length = chunk.numRows := by
    rw [List.getD_eq_getElem _ _ h0]
    exact hlen _ (List.getElem_mem h0)
  have hfirst : ∀ i, ∀ r ∈ bucketRows (rowSelector upd keyColumns N chunk) i,
      r < (chunk.columns.getD 0 []).length := by
    intro i r hr
    have := (mem_bucketRows _ i r).mp hr
    omega
  have hnum : ∀ i, i < N →
      ((SplittingByHashTransform.transform upd keyColumns N chunk).getD i Chunk.empty).numRows
        = (bucketRows (rowSelector upd keyColumns N chunk) i).length := by
    intro i hi
    exact splitChunk_getD_numRows chunk _ N i hi h0 (hfirst i)
  refine ⟨?_, ?_, hnum, ?_⟩
  · unfold SplittingByHashTransform.transform
    rw [splitChunk_def]
    simp
  · have hmap : (SplittingByHashTransform.transform upd keyColumns N chunk).map Chunk.numRows
        = (List.range N).map
            (fun i => (bucketRows (rowSelector upd keyColumns N chunk) i).length) := by
      unfold SplittingByHashTransform.transform
      rw [splitChunk_def, List.map_map]
      refine List.map_congr_left ?_
      intro i hi
      have hiN : i < N := List.mem_range.mp hi
      show (((chunk.columns.map (scatterColumn N (rowSelector upd keyColumns N chunk))).getD
          0 []).getD i []).length = _
      rw [getD_map_scatter_zero chunk _ N h0]
      rw [scatterColumn_getD N _ _ i hiN]
      exact length_filterMap_getElem? _ _ (hfirst i)
    rw [hmap]
    have hcount : (List.range N).map
          (fun i => (bucketRows (rowSelector upd keyColumns N chunk) i).length)
        = (List.range N).map
            (fun i => (rowSelector upd keyColumns N chunk).countP (fun x => x = i)) :=
      List.map_congr_left (fun i _ => length_bucketRows _ i)
    rw [hcount, sum_countP_range _ N hselmem, hsellen]
  · intro r hr
    have hrsel : r < (rowSelector upd keyColumns N chunk).length := by omega
    refine ⟨(rowSelector upd keyColumns N chunk).getD r 0, ⟨?_, ?_⟩, ?_⟩
    · refine hselmem _ ?_
      rw [List.getD_eq_getElem _ _ hrsel]
      exact List.getElem_mem hrsel
    · exact (mem_bucketRows _ _ r).mpr ⟨hrsel, rfl⟩
    · intro j hj
      have := (mem_bucketRows _ j r).mp hj.2
      omega

/-- Witness for C1 at a concrete batch: two columns of three rows, key
column 0, N = 2. -/
theorem c1_partition_row_conservation_witness :
    2 ≤ 2 ∧
    ({ columns := [[1, 2, 1], [7, 8, 9]], numRows := 3 } : Chunk Nat).columns ≠ [] ∧
    (∀ c ∈ ({ columns := [[1, 2, 1], [7, 8, 9]], numRows := 3 } : Chunk Nat).columns,
      c.length = 3) ∧
    (∀ k ∈ [0], k < 2) ∧
    ((SplittingByHashTransform.transform (fun (a : Nat) (b : Nat) => a + b + 1) [0] 2
        { columns := [[1, 2, 1], [7, 8, 9]], numRows := 3 }).length = 2 ∧
     ((SplittingByHashTransform.transform (fun (a : Nat) (b : Nat) => a + b + 1) [0] 2
        { columns := [[1, 2, 1], [7, 8, 9]], numRows := 3 }).map Chunk.numRows).sum = 3 ∧
     (∀ i, i < 2 →
       ((SplittingByHashTransform.transform (fun (a : Nat) (b : Nat) => a + b + 1) [0] 2
          { columns := [[1, 2, 1], [7, 8, 9]], numRows := 3 }).getD i Chunk.empty).numRows
         = (bucketRows (rowSelector (fun (a : Nat) (b : Nat) => a + b + 1) [0] 2
            { columns := [[1, 2, 1], [7, 8, 9]], numRows := 3 }) i).length) ∧
     (∀ r, r < 3 →
       ∃! i, i < 2 ∧ r ∈ bucketRows (rowSelector (fun (a : Nat) (b : Nat) => a + b + 1) [0] 2
          { columns := [[1, 2, 1], [7, 8, 9]], numRows := 3 }) i)) :=
  ⟨by omega, by decide, by decide, by decide,
    c1_partition_row_conservation (fun a b => a + b + 1) [0] 2
      { columns := [[1, 2, 1], [7, 8, 9]], numRows := 3 }
      (by omega) (by decide) (by decide) (by decide)⟩

/-- C3: two rows of the same batch with getElem?-identical values in every
key column receive identical hash-buffer entries, and the bucket mapping
therefore routes them to the same bucket: one shared bucket index below N
names both rows.  The incremental hash collaborator is an arbitrary
deterministic function upd of the column value and prior state, as the claim
assumes. -/
theorem c3_key_colocation (upd : α → Nat → Nat) (columns : List (List α))
    (keyColumns : List Nat) (N n r1 r2 : Nat)
    (hN : 1 ≤ N) (h1 : r1 < n) (h2 : r2 < n)
    (hlen : ∀ c ∈ columns, c.length = n)
    (hkeys : ∀ k ∈ keyColumns, k < columns.length)
    (heq : ∀ k ∈ keyColumns, (columns.getD k [])[r1]? = (columns.getD k [])[r2]?) :
    (calculateWeakHash32 upd columns keyColumns n)[r1]? =
      (calculateWeakHash32 upd columns keyColumns n)[r2]? ∧
    ∃ b, b < N ∧
      (fillSelector (calculateWeakHash32 upd columns keyColumns n) N)[r1]? = some b ∧
      (fillSelector (calculateWeakHash32 upd columns keyColumns n) N)[r2]? = some b := by
  have hh := calculateWeakHash32_getElem?_congr upd columns keyColumns n r1 r2 h1 h2 heq
  have hlen32 : (calculateWeakHash32 upd columns keyColumns n).length = n :=
    calculateWeakHash32_length upd columns keyColumns n hlen hkeys
  have hr1 : r1 < (calculateWeakHash32 upd columns keyColumns n).length := by omega
  refine ⟨hh, fillSelectorEntry N ((calculateWeakHash32 upd columns keyColumns n)[r1]),
    ?_, ?_, ?_⟩
  · refine fillSelectorEntry_lt N _ ?_ hN
    exact calculateWeakHash32_lt upd columns keyColumns n _ (List.getElem_mem hr1)
  · unfold fillSelector
    rw [List.getElem?_map, List.getElem?_eq_getElem hr1]
    rfl
  · unfold fillSelector
    rw [List.getElem?_map, ← hh, List.getElem?_eq_getElem hr1]
    rfl

/-- Witness for C3: rows 0 and 2 share the key value in column 0, with a
concrete hash function. -/
theorem c3_key_colocation_witness :
    1 ≤ 2 ∧ 0 < 3 ∧ 2 < 3 ∧
    (∀ c ∈ [[5, 6, 5], [7, 8, 9]], c.length = 3) ∧
    (∀ k ∈ [0], k < 2) ∧
    (∀ k ∈ [0], (([[5, 6, 5], [7, 8, 9]] : List (List Nat)).getD k [])[0]? =
      (([[5, 6, 5], [7, 8, 9]] : List (List Nat)).getD k [])[2]?) ∧
    ((calculateWeakHash32 (fun (a : Nat) (b : Nat) => a * 31 + b) [[5, 6, 5], [7, 8, 9]]
        [0] 3)[0]? =
      (calculateWeakHash32 (fun (a : Nat) (b : Nat) => a * 31 + b) [[5, 6, 5], [7, 8, 9]]
        [0] 3)[2]? ∧
     ∃ b, b < 2 ∧
      (fillSelector (calculateWeakHash32 (fun (a : Nat) (b : Nat) => a * 31 + b)
        [[5, 6, 5], [7, 8, 9]] [0] 3) 2)[0]? = some b ∧
      (fillSelector (calculateWeakHash32 (fun (a : Nat) (b : Nat) => a * 31 + b)
        [[5, 6, 5], [7, 8, 9]] [0] 3) 2)[2]? = some b) :=
  ⟨by omega, by omega, by omega, by decide, by decide, by decide,
    c3_key_colocation (fun a b => a * 31 + b) [[5, 6, 5], [7, 8, 9]] [0] 2 3 0 2
      (by omega) (by omega) (by omega) (by decide) (by decide) (by decide)⟩

/-- C10: sub-batch i of the transform is row-aligned and stable — there is
one strictly increasing list of source row indices, exactly the rows whose
selector entry is i, such that every column of sub-batch i is the
corresponding input column restricted to those indices (the scatter
collaborator is the spec-modelled order-preserving scatterColumn). -/
theorem c10_stable_partition (upd : α → Nat → Nat) (keyColumns : List Nat)
    (N : Nat) (chunk : Chunk α) (i : Nat) (hi : i < N) :
    (bucketRows (rowSelector upd keyColumns N chunk) i).Pairwise (· < ·) ∧
    (∀ r, r ∈ bucketRows (rowSelector upd keyColumns N chunk) i ↔
      r < (rowSelector upd keyColumns N chunk).length ∧
      (rowSelector upd keyColumns N chunk).getD r 0 = i) ∧
    ((SplittingByHashTransform.transform upd keyColumns N chunk).getD i Chunk.empty).columns =
      chunk.columns.map
        (fun col => (bucketRows (rowSelector upd keyColumns N chunk) i).filterMap
          (fun r => col[r]?)) :=
  ⟨pairwise_bucketRows _ i, fun r => mem_bucketRows _ i r,
    splitChunk_getD_columns chunk _ N i hi⟩

/-- Witness for C10 at the same concrete batch as C1, bucket 0 of 2. -/
theorem c10_stable_partition_witness :
    0 < 2 ∧
    ((bucketRows (rowSelector (fun (a : Nat) (b : Nat) => a + b + 1) [0] 2
        { columns := [[1, 2, 1], [7, 8, 9]], numRows := 3 }) 0).Pairwise (· < ·) ∧
     (∀ r, r ∈ bucketRows (rowSelector (fun (a : Nat) (b : Nat) => a + b + 1) [0] 2
        { columns := [[1, 2, 1], [7, 8, 9]], numRows := 3 }) 0 ↔
       r < (rowSelector (fun (a : Nat) (b : Nat) => a + b + 1) [0] 2
        { columns := [[1, 2, 1], [7, 8, 9]], numRows := 3 }).length ∧
       (rowSelector (fun (a : Nat) (b : Nat) => a + b + 1) [0] 2
        { columns := [[1, 2, 1], [7, 8, 9]], numRows := 3 }).getD r 0 = 0) ∧
     ((SplittingByHashTransform.transform (fun (a : Nat) (b : Nat) => a + b + 1) [0] 2
        { columns := [[1, 2, 1], [7, 8, 9]], numRows := 3 }).getD 0 Chunk.empty).columns =
       ({ columns := [[1, 2, 1], [7, 8, 9]], numRows := 3 } : Chunk Nat).columns.map
         (fun col => (bucketRows (rowSelector (fun (a : Nat) (b : Nat) => a + b + 1) [0] 2
            { columns := [[1, 2, 1], [7, 8, 9]], numRows := 3 }) 0).filterMap
           (fun r => col[r]?))) :=
  ⟨by omega,
    c10_stable_partition (fun a b => a + b + 1) [0] 2
      { columns := [[1, 2, 1], [7, 8, 9]], numRows := 3 } 0 (by omega)⟩

end SplittingByHash
